import Mathlib

/-!
# Verification of the PX4 firmware release catalog tools

Shallow embedding of `Tools/manifest/update_firmware_index.py` and
`Tools/manifest/gen_release_manifest.py`.

Modelling conventions:
* Python strings are Lean `String`s; Python's lexicographic string
  comparison (by code point) is modelled by `List.Lex` on the
  underlying character lists.
* Python's stable `list.sort` is modelled by `List.insertionSort`
  (insertion sort is a stable sort, hence extensionally equal to
  Timsort for a fixed key relation).
* `re` digit and letter classes are modelled as ASCII (`Char.isDigit`,
  ASCII letter test), matching the version strings this tool handles.
* The module-level clock (`time.time()`, `time.strftime`) is passed in
  explicitly (`now`, `today`), as the spec directs.
* JSON dictionaries with a fixed field set are Lean structures; the
  top-level index additionally carries an opaque `extra` association
  list for any further fields a loaded document may hold, which the
  code never touches.
-/

namespace PX4

/-! ## Character/string comparison (Python `<` on strings) -/

/-- Model of Python string `<`: lexicographic comparison of the
character lists by code point. -/
def strLt (s t : String) : Prop := List.Lex (· < ·) s.data t.data

instance : DecidableRel strLt := fun s t => List.Lex.decidableRel _ s.data t.data

/-- Substring containment (Python's `in` on strings), on char lists:
`subInfixOf pat l` is true iff `pat` occurs contiguously in `l`. -/
def subInfixOf (pat : List Char) : List Char → Bool
  | [] => pat.isEmpty
  | c :: rest => pat.isPrefixOf (c :: rest) || subInfixOf pat rest

/-- Python's `"pat" in s`. -/
def strContains (s pat : String) : Bool := subInfixOf pat.data s.data

/-! ## Version parsing (`parse_version_tuple`) -/

/-- The 5-tuple sort key `(major, minor, patch, prerelease_type, prerelease_num)`. -/
abbrev VKey : Type := Nat × Nat × Nat × String × Nat

/-- ASCII letter, the `[a-zA-Z]` class of the source regex. -/
def isAsciiLetter (c : Char) : Bool := ('a' ≤ c && c ≤ 'z') || ('A' ≤ c && c ≤ 'Z')

/-- Value of a nonempty ASCII digit string (Python `int`). -/
def digitsToNat (ds : List Char) : Nat :=
  ds.foldl (fun n c => 10 * n + (c.toNat - '0'.toNat)) 0

/-- One mandatory `\d+` group: the maximal leading digit run, which must be
nonempty; returns the value and the remaining characters. -/
def matchNat (cs : List Char) : Option (Nat × List Char) :=
  let ds := cs.takeWhile Char.isDigit
  if ds.isEmpty then none else some (digitsToNat ds, cs.dropWhile Char.isDigit)

/-- Prefix match of the source regex
`(\d+)\.(\d+)\.(\d+)(?:-([a-zA-Z]+)(\d+)?)?` (the source uses `re.match`,
which anchors at the start only: trailing characters are permitted).
Returns `(major, minor, patch, optional (tag letters, numeric suffix))`. -/
def matchVersionCore (cs : List Char) : Option (Nat × Nat × Nat × Option (List Char × Nat)) := do
  let (major, cs) ← matchNat cs
  match cs with
  | '.' :: cs =>
    let (minor, cs) ← matchNat cs
    match cs with
    | '.' :: cs =>
      let (patch, cs) ← matchNat cs
      -- optional greedy `(?:-([a-zA-Z]+)(\d+)?)?`
      match cs with
      | '-' :: cs' =>
        let letters := cs'.takeWhile isAsciiLetter
        if letters.isEmpty then
          some (major, minor, patch, none)
        else
          let rest := cs'.dropWhile isAsciiLetter
          let ds := rest.takeWhile Char.isDigit
          some (major, minor, patch,
            some (letters, if ds.isEmpty then 0 else digitsToNat ds))
      | _ => some (major, minor, patch, none)
    | _ => none
  | _ => none

/-- Model of `parse_version_tuple` from `update_firmware_index.py`:
strip all leading `'v'` characters (`str.lstrip("v")`), prefix-match the
version regex; on failure return the sentinel `(0, 0, 0, "zzz", 0)`;
an absent prerelease tag becomes `"zzz"`, and the tag is lowercased. -/
def parse_version_tuple (version : String) : VKey :=
  let v := version.data.dropWhile (· == 'v')
  match matchVersionCore v with
  | none => (0, 0, 0, "zzz", 0)
  | some (major, minor, patch, pre) =>
    match pre with
    | none => (major, minor, patch, "zzz", 0)
    | some (letters, num) => (major, minor, patch, ⟨letters.map Char.toLower⟩, num)

/-! ## The lexicographic order on version keys -/

/-- Lexicographic combination of two strict orders (Python tuple `<`). -/
def lexP {α β : Type} (la : α → α → Prop) (lb : β → β → Prop) (x y : α × β) : Prop :=
  la x.1 y.1 ∨ (x.1 = y.1 ∧ lb x.2 y.2)

instance {α β : Type} (la : α → α → Prop) (lb : β → β → Prop)
    [DecidableRel la] [DecidableRel lb] [DecidableEq α] : DecidableRel (lexP la lb) :=
  fun x y => by unfold lexP; infer_instance

/-- Model of Python `<` on the 5-tuples produced by `parse_version_tuple`. -/
def vkeyLt : VKey → VKey → Prop :=
  lexP (· < ·) (lexP (· < ·) (lexP (· < ·) (lexP strLt (· < ·))))

instance : DecidableRel vkeyLt := fun a b => by unfold vkeyLt; infer_instance

/-! ## Channel classification (`determine_channel`) -/

/-- Full match of `^v?\d+\.\d+\.\d+$` in Python semantics: an optional
leading `v`, three dot-separated digit runs, and then the end of the
string (Python's `$` also matches just before a single trailing
newline). -/
def stableRegexMatch (s : String) : Bool :=
  let cs := match s.data with
    | 'v' :: rest => rest
    | other => other
  match matchNat cs with
  | none => false
  | some (_, cs) =>
    match cs with
    | '.' :: cs =>
      (match matchNat cs with
       | none => false
       | some (_, cs) =>
         match cs with
         | '.' :: cs =>
           (match matchNat cs with
            | none => false
            | some (_, cs) =>
                match cs with
                | [] => true
                | ['\n'] => true
                | _ => false)
         | _ => false)
    | _ => false

/-- Model of `determine_channel` from `update_firmware_index.py`. -/
def determine_channel (version : String) : String :=
  let version_lower : String := ⟨version.data.map Char.toLower⟩
  if stableRegexMatch version then "stable"
  else if strContains version_lower "-beta" || strContains version_lower "-rc" then "beta"
  else "dev"

/-! ## The firmware index data model -/

/-- One element of the index's `releases` array. -/
structure ReleaseEntry where
  version : String
  git_tag : String
  release_date : String
  channel : String
  build_count : Int
  manifest_url : String
  s3_manifest_url : Option String
deriving DecidableEq, Repr

/-- The top-level firmware index document.  `latest_*` fields are
optional (`none` = key absent); `extra` is the opaque bag of any other
top-level keys a loaded JSON document happens to carry. -/
structure FirmwareIndex where
  format_version : Int
  updated_at : Int
  description : String
  releases : List ReleaseEntry
  latest_stable : Option String
  latest_beta : Option String
  latest_dev : Option String
  extra : List (String × String)
deriving DecidableEq, Repr

/-- Model of `create_empty_index` (with the clock injected). -/
def create_empty_index (now : Int) : FirmwareIndex :=
  { format_version := 1
    updated_at := now
    description := "PX4 Firmware Release Index"
    releases := []
    latest_stable := none
    latest_beta := none
    latest_dev := none
    extra := [] }

/-- Sort key of a release: `parse_version_tuple(r.get("version", ""))`. -/
def entryKey (r : ReleaseEntry) : VKey := parse_version_tuple r.version

/-- The relation under which `releases.sort(key=parse_version_tuple,
reverse=True)` is a stable insertion sort: `a` may stay in front of `b`
iff `a`'s key is not strictly below `b`'s. -/
def entryGE (a b : ReleaseEntry) : Prop := ¬ vkeyLt (entryKey a) (entryKey b)

instance : DecidableRel entryGE := fun a b => by unfold entryGE; infer_instance

/-- Python's `index["releases"].sort(key=..., reverse=True)`: a stable
sort, descending by parsed version tuple. -/
def sortReleases (l : List ReleaseEntry) : List ReleaseEntry :=
  List.insertionSort entryGE l

/-- Insertion of a last-in-input element into a descending-sorted list:
it goes in front of the first strictly-smaller element, i.e. after all
elements with greater-or-equal keys. -/
def insertLast (x : ReleaseEntry) : List ReleaseEntry → List ReleaseEntry
  | [] => [x]
  | y :: l =>
    if vkeyLt (entryKey y) (entryKey x) then x :: y :: l
    else y :: insertLast x l

/-- Update of a `latest_` field: the version of the first entry of the given
channel in the sorted order, keeping the old value when the channel has
no entries (the code only assigns `index[f"latest_{ch}"]` when
`channel_releases` is nonempty). -/
def latestOf (ch : String) (rs : List ReleaseEntry) (old : Option String) : Option String :=
  match rs.filter (fun r => r.channel == ch) with
  | [] => old
  | r :: _ => some r.version

/-- Construction of the `new_entry` dictionary inside `update_index`;
the S3 URL key is only added when `s3_url` is truthy (a nonempty
string). -/
def mkNewEntry (today version git_tag : String) (build_count : Int)
    (manifest_url s3_url : String) : ReleaseEntry :=
  { version := version
    git_tag := git_tag
    release_date := today
    channel := determine_channel version
    build_count := build_count
    manifest_url := manifest_url
    s3_manifest_url := if s3_url ≠ "" then some s3_url else none }

/-- Model of `update_index` from `update_firmware_index.py`, with the clock
(`now` for `int(time.time())`, `today` for `time.strftime("%Y-%m-%d")`)
injected. -/
def update_index (now : Int) (today : String) (index : FirmwareIndex)
    (version git_tag : String) (build_count : Int)
    (manifest_url : String) (s3_url : String) : FirmwareIndex :=
  let new_entry := mkNewEntry today version git_tag build_count manifest_url s3_url
  let kept := index.releases.filter (fun r => !(r.version == version))
  let releases' := sortReleases (kept ++ [new_entry])
  { index with
    releases := releases'
    updated_at := now
    latest_stable := latestOf "stable" releases' index.latest_stable
    latest_beta := latestOf "beta" releases' index.latest_beta
    latest_dev := latestOf "dev" releases' index.latest_dev }

/-! ## The release-manifest generator (`gen_release_manifest.py`) -/

/-- Opaque nested board manifest: only its `target` key is ever
inspected (for the sort key); `rest` stands for the remaining
board-specific content.  A present-but-empty (falsy) manifest value,
which the source drops just like an absent one, is modelled as `none`
at the use site. -/
structure BoardManifest where
  target : Option String
  rest : List (String × String)
deriving DecidableEq, Repr

/-- A parsed `.px4` artifact document; `none` in a field means the JSON
key is absent.  Only presence is checked for `magic` and `image`. -/
structure RawDoc where
  magic : Option String
  board_id : Option Int
  board_revision : Option Int
  version : Option String
  git_identity : Option String
  git_hash : Option String
  build_time : Option Int
  image_size : Option Int
  sha256sum : Option String
  mav_autopilot : Option Int
  image : Option String
  manifest : Option BoardManifest
deriving DecidableEq, Repr

/-- One file of the artifact directory: its name and its content
(`none` when the file is not parseable JSON or cannot be read). -/
structure PX4File where
  name : String
  doc : Option RawDoc
deriving DecidableEq, Repr

/-- One entry of the `builds` array of a release manifest. -/
structure BuildEntry where
  filename : String
  board_id : Int
  board_revision : Int
  version : String
  git_identity : String
  git_hash : String
  build_time : Int
  image_size : Int
  sha256sum : String
  mav_autopilot : Int
  manifest : Option BoardManifest
  url : Option String
deriving DecidableEq, Repr

/-- Model of `extract_px4_metadata`: a non-parseable file or one missing
any of `magic`, `board_id`, `image` yields `none` (warn and skip);
otherwise the fixed allow-list of fields is projected out, with
defaults. -/
def extract_px4_metadata (f : PX4File) : Option BuildEntry :=
  match f.doc with
  | none => none
  | some d =>
    if d.magic.isNone || d.board_id.isNone || d.image.isNone then none
    else some
      { filename := f.name
        board_id := d.board_id.getD 0
        board_revision := d.board_revision.getD 0
        version := d.version.getD ""
        git_identity := d.git_identity.getD ""
        git_hash := d.git_hash.getD ""
        build_time := d.build_time.getD 0
        image_size := d.image_size.getD 0
        sha256sum := d.sha256sum.getD ""
        mav_autopilot := d.mav_autopilot.getD 12
        manifest := d.manifest
        url := none }

/-- Python `base_url.rstrip("/")`: remove ALL trailing `'/'` characters. -/
def rstripSlashes (s : String) : String :=
  ⟨(s.data.reverse.dropWhile (· == '/')).reverse⟩

/-- Sort key of a build: `b.get("manifest", {}).get("target", b["filename"])`. -/
def buildSortKey (b : BuildEntry) : String :=
  match b.manifest with
  | some m => m.target.getD b.filename
  | none => b.filename

/-- The relation under which `builds.sort(key=...)` is a stable
insertion sort: `a` may stay in front of `b` iff `a`'s key is not
strictly above `b`'s. -/
def buildLE (a b : BuildEntry) : Prop := ¬ strLt (buildSortKey b) (buildSortKey a)

instance : DecidableRel buildLE := fun a b => by unfold buildLE; infer_instance

/-- The release manifest document. -/
structure ReleaseManifest where
  format_version : Int
  generated_at : Int
  version : String
  git_tag : String
  build_count : Nat
  builds : List BuildEntry
deriving DecidableEq, Repr

/-- Model of `generate_release_manifest`, over the (alphabetically
enumerated) list of files of the artifact directory, with the clock
injected. -/
def generate_release_manifest (files : List PX4File)
    (version git_tag base_url : String) (now : Int) : ReleaseManifest :=
  let builds := files.filterMap (fun f =>
    (extract_px4_metadata f).map (fun m =>
      if base_url ≠ "" then
        { m with url := some (rstripSlashes base_url ++ "/" ++ m.filename) }
      else m))
  let sorted := List.insertionSort buildLE builds
  { format_version := 1
    generated_at := now
    version := version
    git_tag := git_tag
    build_count := sorted.length
    builds := sorted }

/-! ## Auxiliary definitions for the claims -/

/-- The relation under which sorting version STRINGS descending by
`parse_version_tuple` is a stable insertion sort (the key relation the
Index Updater applies to `releases`, restated on bare strings). -/
def versionStrGE (s t : String) : Prop :=
  ¬ vkeyLt (parse_version_tuple s) (parse_version_tuple t)

instance : DecidableRel versionStrGE := fun s t => by unfold versionStrGE; infer_instance

/-- Stable descending sort of version strings by parsed tuple. -/
def sortVersionsDesc (l : List String) : List String :=
  List.insertionSort versionStrGE l

/-- Definition written from the SPEC's words (claim C3), not from the
source: full match of the grammar `optional leading 'v', then
MAJOR.MINOR.PATCH, optionally followed by '-TAG' (one or more letters)
with an optional integer suffix, and nothing else`. -/
def specVersionGrammar (s : String) : Bool :=
  let cs := match s.data with
    | 'v' :: rest => rest
    | other => other
  match matchNat cs with
  | none => false
  | some (_, cs) =>
    match cs with
    | '.' :: cs =>
      (match matchNat cs with
       | none => false
       | some (_, cs) =>
         match cs with
         | '.' :: cs =>
           (match matchNat cs with
            | none => false
            | some (_, cs) =>
              match cs with
              | [] => true
              | '-' :: cs' =>
                let letters := cs'.takeWhile isAsciiLetter
                if letters.isEmpty then false
                else (cs'.dropWhile isAsciiLetter).all Char.isDigit
              | _ => false)
         | _ => false)
    | _ => false

/-- Definition written from the SPEC's words (claim C7), not from the
source: the entry URL as the spec describes it, `baseURL` with exactly
ONE trailing slash stripped, then one slash appended, plus the
filename. -/
def specBaseURLJoin (base filename : String) : String :=
  let stripped : String :=
    match base.data.reverse with
    | '/' :: rest => ⟨rest.reverse⟩
    | _ => base
  stripped ++ "/" ++ filename

/-! ## Order-theoretic facts about the comparison relations -/

theorem strLt_trans {a b c : String} (h : strLt a b) (h' : strLt b c) : strLt a c :=
  IsTrans.trans (r := List.Lex (· < ·)) _ _ _ h h'

theorem strLt_asymm {a b : String} (h : strLt a b) : ¬ strLt b a :=
  IsAsymm.asymm (r := List.Lex (· < ·)) _ _ h

theorem strLt_trichotomy (a b : String) : strLt a b ∨ a = b ∨ strLt b a := by
  rcases (List.Lex.isTrichotomous (α := Char) (· < ·)).trichotomous a.data b.data with h | h | h
  · exact Or.inl h
  · exact Or.inr (Or.inl (String.toList_inj.mp h))
  · exact Or.inr (Or.inr h)

theorem lexP_trans {α β : Type} {la : α → α → Prop} {lb : β → β → Prop}
    (hla : ∀ x y z, la x y → la y z → la x z)
    (hlb : ∀ x y z, lb x y → lb y z → lb x z) :
    ∀ x y z, lexP la lb x y → lexP la lb y z → lexP la lb x z := by
  rintro ⟨x1, x2⟩ ⟨y1, y2⟩ ⟨z1, z2⟩ (h | ⟨e, h⟩) (h' | ⟨e', h'⟩)
  · exact Or.inl (hla _ _ _ h h')
  · exact Or.inl (e' ▸ h)
  · exact Or.inl (e ▸ h')
  · exact Or.inr ⟨e.trans e', hlb _ _ _ h h'⟩

theorem lexP_asymm {α β : Type} {la : α → α → Prop} {lb : β → β → Prop}
    (hla : ∀ x y, la x y → ¬ la y x)
    (hlb : ∀ x y, lb x y → ¬ lb y x) :
    ∀ x y, lexP la lb x y → ¬ lexP la lb y x := by
  rintro ⟨x1, x2⟩ ⟨y1, y2⟩ (h | ⟨e, h⟩) (h' | ⟨e', h'⟩)
  · exact hla _ _ h h'
  · exact hla _ _ (e' ▸ h) (e' ▸ h)
  · exact hla _ _ (e ▸ h') (e ▸ h')
  · exact hlb _ _ h h'

theorem lexP_trichotomy {α β : Type} {la : α → α → Prop} {lb : β → β → Prop}
    (hla : ∀ x y, la x y ∨ x = y ∨ la y x)
    (hlb : ∀ x y, lb x y ∨ x = y ∨ lb y x) :
    ∀ x y, lexP la lb x y ∨ x = y ∨ lexP la lb y x := by
  rintro ⟨x1, x2⟩ ⟨y1, y2⟩
  rcases hla x1 y1 with h | h | h
  · exact Or.inl (Or.inl h)
  · subst h
    rcases hlb x2 y2 with h2 | h2 | h2
    · exact Or.inl (Or.inr ⟨rfl, h2⟩)
    · subst h2
      exact Or.inr (Or.inl rfl)
    · exact Or.inr (Or.inr (Or.inr ⟨rfl, h2⟩))
  · exact Or.inr (Or.inr (Or.inl h))

theorem vkeyLt_trans : ∀ x y z : VKey, vkeyLt x y → vkeyLt y z → vkeyLt x z :=
  lexP_trans (fun _ _ _ => Nat.lt_trans)
    (lexP_trans (fun _ _ _ => Nat.lt_trans)
      (lexP_trans (fun _ _ _ => Nat.lt_trans)
        (lexP_trans (fun _ _ _ => strLt_trans) (fun _ _ _ => Nat.lt_trans))))

theorem vkeyLt_asymm : ∀ x y : VKey, vkeyLt x y → ¬ vkeyLt y x :=
  lexP_asymm (fun _ _ => Nat.lt_asymm)
    (lexP_asymm (fun _ _ => Nat.lt_asymm)
      (lexP_asymm (fun _ _ => Nat.lt_asymm)
        (lexP_asymm (fun _ _ => strLt_asymm) (fun _ _ => Nat.lt_asymm))))

theorem vkeyLt_trichotomy : ∀ x y : VKey, vkeyLt x y ∨ x = y ∨ vkeyLt y x :=
  lexP_trichotomy Nat.lt_trichotomy
    (lexP_trichotomy Nat.lt_trichotomy
      (lexP_trichotomy Nat.lt_trichotomy
        (lexP_trichotomy strLt_trichotomy Nat.lt_trichotomy)))

instance : IsTotal ReleaseEntry entryGE :=
  ⟨fun a b => by
    by_cases h : vkeyLt (entryKey a) (entryKey b)
    · exact Or.inr (vkeyLt_asymm _ _ h)
    · exact Or.inl h⟩

instance : IsTrans ReleaseEntry entryGE :=
  ⟨fun a b c hab hbc => by
    intro hac
    rcases vkeyLt_trichotomy (entryKey a) (entryKey b) with h | h | h
    · exact hab h
    · exact hbc (h ▸ hac)
    · rcases vkeyLt_trichotomy (entryKey b) (entryKey c) with h' | h' | h'
      · exact hbc h'
      · exact hab (h'.symm ▸ hac)
      · exact vkeyLt_asymm _ _ (vkeyLt_trans _ _ _ h' h) hac⟩

/-! ## Stability of the descending release sort

A stable descending sort places an element appended at the END of the
input after every earlier element with an equal key.  `insertLast`
performs exactly that insertion into an already-sorted list; the lemmas
below show that sorting `l ++ [x]` equals `insertLast x` into the sort
of `l`, which is what makes the upsert idempotent. -/

theorem insertLast_cons_pos {x y : ReleaseEntry} (l : List ReleaseEntry)
    (h : vkeyLt (entryKey y) (entryKey x)) :
    insertLast x (y :: l) = x :: y :: l := by
  rw [insertLast, if_pos h]

theorem insertLast_cons_neg {x y : ReleaseEntry} (l : List ReleaseEntry)
    (h : ¬ vkeyLt (entryKey y) (entryKey x)) :
    insertLast x (y :: l) = y :: insertLast x l := by
  rw [insertLast, if_neg h]

theorem orderedInsert_cons_pos {a y : ReleaseEntry} (l : List ReleaseEntry)
    (h : entryGE a y) :
    List.orderedInsert entryGE a (y :: l) = a :: y :: l :=
  List.orderedInsert_of_le _ _ h

theorem orderedInsert_cons_neg {a y : ReleaseEntry} (l : List ReleaseEntry)
    (h : ¬ entryGE a y) :
    List.orderedInsert entryGE a (y :: l) = y :: List.orderedInsert entryGE a l := by
  rw [List.orderedInsert, if_neg h]

theorem orderedInsert_insertLast (a x : ReleaseEntry) :
    ∀ m, List.orderedInsert entryGE a (insertLast x m)
      = insertLast x (List.orderedInsert entryGE a m) := by
  intro m
  induction m with
  | nil =>
    by_cases hax : vkeyLt (entryKey a) (entryKey x)
    · rw [show insertLast x ([] : List ReleaseEntry) = [x] from rfl,
        orderedInsert_cons_neg _ (fun h => h hax),
        show List.orderedInsert entryGE a [] = [a] from rfl,
        insertLast_cons_pos _ hax]
    · rw [show insertLast x ([] : List ReleaseEntry) = [x] from rfl,
        orderedInsert_cons_pos _ hax,
        show List.orderedInsert entryGE a [] = [a] from rfl,
        insertLast_cons_neg _ hax,
        show insertLast x ([] : List ReleaseEntry) = [x] from rfl]
  | cons y m ih =>
    by_cases hX : vkeyLt (entryKey y) (entryKey x)
    · rw [insertLast_cons_pos _ hX]
      by_cases hA : vkeyLt (entryKey a) (entryKey y)
      · have hax : vkeyLt (entryKey a) (entryKey x) := vkeyLt_trans _ _ _ hA hX
        rw [orderedInsert_cons_neg _ (fun h => h hax),
          orderedInsert_cons_neg _ (fun h => h hA),
          insertLast_cons_pos _ hX]
      · rw [orderedInsert_cons_pos _ hA]
        by_cases hax : vkeyLt (entryKey a) (entryKey x)
        · rw [orderedInsert_cons_neg _ (fun h => h hax), insertLast_cons_pos _ hax,
            orderedInsert_cons_pos _ hA]
        · rw [orderedInsert_cons_pos _ hax, insertLast_cons_neg _ hax,
            insertLast_cons_pos _ hX]
    · rw [insertLast_cons_neg _ hX]
      by_cases hA : vkeyLt (entryKey a) (entryKey y)
      · rw [orderedInsert_cons_neg _ (fun h => h hA),
          orderedInsert_cons_neg _ (fun h => h hA), ih,
          insertLast_cons_neg _ hX]
      · have hax : ¬ vkeyLt (entryKey a) (entryKey x) := by
          intro hax
          rcases vkeyLt_trichotomy (entryKey a) (entryKey y) with h | h | h
          · exact hA h
          · exact hX (h ▸ hax)
          · exact hX (vkeyLt_trans _ _ _ h hax)
        rw [orderedInsert_cons_pos _ hA, orderedInsert_cons_pos _ hA,
          insertLast_cons_neg _ hax, insertLast_cons_neg _ hX]

theorem sortReleases_append_singleton (x : ReleaseEntry) :
    ∀ l, sortReleases (l ++ [x]) = insertLast x (sortReleases l) := by
  intro l
  induction l with
  | nil => rfl
  | cons a l ih =>
    show List.orderedInsert entryGE a (sortReleases (l ++ [x]))
      = insertLast x (List.orderedInsert entryGE a (sortReleases l))
    rw [ih, orderedInsert_insertLast]

theorem filter_insertLast_neg (p : ReleaseEntry → Bool) (x : ReleaseEntry)
    (hx : p x = false) : ∀ l, (insertLast x l).filter p = l.filter p := by
  intro l
  induction l with
  | nil => simp [insertLast, hx]
  | cons y l ih =>
    by_cases hX : vkeyLt (entryKey y) (entryKey x)
    · rw [insertLast_cons_pos _ hX, List.filter_cons, hx]
      simp
    · rw [insertLast_cons_neg _ hX, List.filter_cons, List.filter_cons, ih]

theorem sortReleases_idem (l : List ReleaseEntry) :
    sortReleases (sortReleases l) = sortReleases l :=
  (List.sorted_insertionSort entryGE l).insertionSort_eq

theorem mem_sortReleases {l : List ReleaseEntry} {a : ReleaseEntry} :
    a ∈ sortReleases l ↔ a ∈ l :=
  (List.perm_insertionSort entryGE l).mem_iff

/-! ## Projection equations for `update_index` -/

theorem update_index_releases (now : Int) (today : String) (idx : FirmwareIndex)
    (v g : String) (bc : Int) (mu s3 : String) :
    (update_index now today idx v g bc mu s3).releases
      = sortReleases (idx.releases.filter (fun r => !(r.version == v))
          ++ [mkNewEntry today v g bc mu s3]) := rfl

theorem update_index_latest_stable (now : Int) (today : String) (idx : FirmwareIndex)
    (v g : String) (bc : Int) (mu s3 : String) :
    (update_index now today idx v g bc mu s3).latest_stable
      = latestOf "stable" (update_index now today idx v g bc mu s3).releases
          idx.latest_stable := rfl

theorem update_index_latest_beta (now : Int) (today : String) (idx : FirmwareIndex)
    (v g : String) (bc : Int) (mu s3 : String) :
    (update_index now today idx v g bc mu s3).latest_beta
      = latestOf "beta" (update_index now today idx v g bc mu s3).releases
          idx.latest_beta := rfl

theorem update_index_latest_dev (now : Int) (today : String) (idx : FirmwareIndex)
    (v g : String) (bc : Int) (mu s3 : String) :
    (update_index now today idx v g bc mu s3).latest_dev
      = latestOf "dev" (update_index now today idx v g bc mu s3).releases
          idx.latest_dev := rfl

theorem latestOf_latestOf (ch : String) (rs : List ReleaseEntry) (old : Option String) :
    latestOf ch rs (latestOf ch rs old) = latestOf ch rs old := by
  cases h : rs.filter (fun r => r.channel == ch) with
  | nil => simp [latestOf, h]
  | cons r t => simp [latestOf, h]

attribute [ext] FirmwareIndex

/-- C2: Upsert is idempotent: for every index `idx` and every entry
(described by its argument tuple), holding the injected time fixed,
`Upsert(Upsert(idx, e), e) = Upsert(idx, e)`. -/
theorem update_index_idempotent (now : Int) (today : String) (idx : FirmwareIndex)
    (v g : String) (bc : Int) (mu s3 : String) :
    update_index now today (update_index now today idx v g bc mu s3) v g bc mu s3
      = update_index now today idx v g bc mu s3 := by
  have hq : (fun r : ReleaseEntry => !(r.version == v))
      (mkNewEntry today v g bc mu s3) = false := by
    simp [mkNewEntry]
  have hS1 : (update_index now today idx v g bc mu s3).releases
      = insertLast (mkNewEntry today v g bc mu s3)
          (sortReleases (idx.releases.filter (fun r => !(r.version == v)))) := by
    rw [update_index_releases now today idx v g bc mu s3]
    exact sortReleases_append_singleton _ _
  have hfil : (update_index now today idx v g bc mu s3).releases.filter
        (fun r => !(r.version == v))
      = sortReleases (idx.releases.filter (fun r => !(r.version == v))) := by
    rw [hS1, filter_insertLast_neg _ _ hq]
    apply List.filter_eq_self.mpr
    intro a ha
    exact (List.mem_filter.mp (mem_sortReleases.mp ha)).2
  have hS2 : (update_index now today (update_index now today idx v g bc mu s3)
        v g bc mu s3).releases
      = (update_index now today idx v g bc mu s3).releases := by
    rw [update_index_releases now today (update_index now today idx v g bc mu s3)
        v g bc mu s3, hfil, sortReleases_append_singleton, sortReleases_idem]
    exact hS1.symm
  ext1
  · rfl
  · rfl
  · rfl
  · exact hS2
  · rw [update_index_latest_stable now today (update_index now today idx v g bc mu s3)
        v g bc mu s3, hS2,
      update_index_latest_stable now today idx v g bc mu s3, latestOf_latestOf]
  · rw [update_index_latest_beta now today (update_index now today idx v g bc mu s3)
        v g bc mu s3, hS2,
      update_index_latest_beta now today idx v g bc mu s3, latestOf_latestOf]
  · rw [update_index_latest_dev now today (update_index now today idx v g bc mu s3)
        v g bc mu s3, hS2,
      update_index_latest_dev now today idx v g bc mu s3, latestOf_latestOf]
  · rfl

/-- C10: Upsert touches only `releases`, `updated_at` and the three
`latest_*` fields: `format_version`, `description` and every extra
top-level field of the input index appear unchanged in the result. -/
theorem update_index_frame (now : Int) (today : String) (idx : FirmwareIndex)
    (v g : String) (bc : Int) (mu s3 : String) :
    (update_index now today idx v g bc mu s3).format_version = idx.format_version ∧
    (update_index now today idx v g bc mu s3).description = idx.description ∧
    (update_index now today idx v g bc mu s3).extra = idx.extra :=
  ⟨rfl, rfl, rfl⟩

/-- C9: upserting stable `v1.2.0` into an index holding stable `v1.0.0`
and beta `v1.1.0-rc1` sets `latest_stable` to `v1.2.0` and leaves
`latest_beta` at `v1.1.0-rc1`; upserting `v1.15.0` into an empty index
yields exactly that release, `latest_stable = "v1.15.0"`, and no
`latest_beta`/`latest_dev`. -/
theorem upsert_scenarios :
    ((update_index 100 "2025-01-01"
        { format_version := 1
          updated_at := 0
          description := "PX4 Firmware Release Index"
          releases := [
            { version := "v1.0.0", git_tag := "v1.0.0", release_date := "2024-01-01",
              channel := "stable", build_count := 10, manifest_url := "m1",
              s3_manifest_url := none },
            { version := "v1.1.0-rc1", git_tag := "v1.1.0-rc1", release_date := "2024-06-01",
              channel := "beta", build_count := 11, manifest_url := "m2",
              s3_manifest_url := none }]
          latest_stable := some "v1.0.0"
          latest_beta := some "v1.1.0-rc1"
          latest_dev := none
          extra := [] }
        "v1.2.0" "v1.2.0" 12 "m3" "").latest_stable = some "v1.2.0" ∧
     (update_index 100 "2025-01-01"
        { format_version := 1
          updated_at := 0
          description := "PX4 Firmware Release Index"
          releases := [
            { version := "v1.0.0", git_tag := "v1.0.0", release_date := "2024-01-01",
              channel := "stable", build_count := 10, manifest_url := "m1",
              s3_manifest_url := none },
            { version := "v1.1.0-rc1", git_tag := "v1.1.0-rc1", release_date := "2024-06-01",
              channel := "beta", build_count := 11, manifest_url := "m2",
              s3_manifest_url := none }]
          latest_stable := some "v1.0.0"
          latest_beta := some "v1.1.0-rc1"
          latest_dev := none
          extra := [] }
        "v1.2.0" "v1.2.0" 12 "m3" "").latest_beta = some "v1.1.0-rc1") ∧
    ((update_index 100 "2025-01-01" (create_empty_index 50)
        "v1.15.0" "v1.15.0" 150 "mu" "").releases = [
      { version := "v1.15.0", git_tag := "v1.15.0", release_date := "2025-01-01",
        channel := "stable", build_count := 150, manifest_url := "mu",
        s3_manifest_url := none }] ∧
     (update_index 100 "2025-01-01" (create_empty_index 50)
        "v1.15.0" "v1.15.0" 150 "mu" "").latest_stable = some "v1.15.0" ∧
     (update_index 100 "2025-01-01" (create_empty_index 50)
        "v1.15.0" "v1.15.0" 150 "mu" "").latest_beta = none ∧
     (update_index 100 "2025-01-01" (create_empty_index 50)
        "v1.15.0" "v1.15.0" 150 "mu" "").latest_dev = none) := by
  decide

/-- C5: channel classification: `v1.15.0` is stable, `v1.15.0-rc1` and
`v1.15.0-beta3` beta, `v1.15.0-alpha1`, `v1.15.0-dev7` and `garbage`
dev; in general a full match of `^v?\d+\.\d+\.\d+$` is stable, else a
lowercased occurrence of `-beta` or `-rc` means beta, else dev. -/
theorem determine_channel_spec :
    (determine_channel "v1.15.0" = "stable" ∧
     determine_channel "v1.15.0-rc1" = "beta" ∧
     determine_channel "v1.15.0-beta3" = "beta" ∧
     determine_channel "v1.15.0-alpha1" = "dev" ∧
     determine_channel "v1.15.0-dev7" = "dev" ∧
     determine_channel "garbage" = "dev") ∧
    ∀ s : String,
      (stableRegexMatch s = true → determine_channel s = "stable") ∧
      (stableRegexMatch s = false →
        (strContains ⟨s.data.map Char.toLower⟩ "-beta"
          || strContains ⟨s.data.map Char.toLower⟩ "-rc") = true →
        determine_channel s = "beta") ∧
      (stableRegexMatch s = false →
        (strContains ⟨s.data.map Char.toLower⟩ "-beta"
          || strContains ⟨s.data.map Char.toLower⟩ "-rc") = false →
        determine_channel s = "dev") := by
  refine ⟨by decide, ?_⟩
  intro s
  refine ⟨fun h => ?_, fun h h2 => ?_, fun h h2 => ?_⟩
  · simp [determine_channel, h]
  · simp [determine_channel, h, h2]
  · simp [determine_channel, h, h2]

/-- C5 witness: a string that is not a stable match but contains `-rc`
case-insensitively classifies as beta. -/
theorem determine_channel_spec_witness :
    stableRegexMatch "x1.2.3-RC" = false ∧ determine_channel "x1.2.3-RC" = "beta" :=
  ⟨by decide, (determine_channel_spec.2 "x1.2.3-RC").2.1 (by decide) (by decide)⟩

/-- C4 counterexample: `v1.15.0-zzzz` is a lettered prerelease of
1.15.0, and the stable `v1.15.0` ranks BELOW it in the tuple order, so
a stable release does not rank above every lettered prerelease of the
same major.minor.patch. -/
theorem version_order_counterexample :
    parse_version_tuple "v1.15.0-zzzz" = (1, 15, 0, "zzzz", 0) ∧
    vkeyLt (parse_version_tuple "v1.15.0") (parse_version_tuple "v1.15.0-zzzz") := by
  decide

/-- C4 (amended): the five version strings sort descending exactly as
the spec lists them, and a stable release (tag `"zzz"`, num 0) ranks
above every prerelease of the same major.minor.patch whose lowercased
tag is lexicographically below `"zzz"` (as `alpha`, `beta`, `rc` are). -/
theorem version_order_amended :
    sortVersionsDesc ["v1.15.0", "v1.15.0-rc1", "v1.15.0-beta2", "v1.15.0-alpha1", "v1.14.0"]
      = ["v1.15.0", "v1.15.0-rc1", "v1.15.0-beta2", "v1.15.0-alpha1", "v1.14.0"] ∧
    ∀ (M m p : Nat) (tag : String) (n : Nat), strLt tag "zzz" →
      vkeyLt (M, m, p, tag, n) (M, m, p, "zzz", 0) := by
  refine ⟨by decide, ?_⟩
  intro M m p tag n h
  exact Or.inr ⟨rfl, Or.inr ⟨rfl, Or.inr ⟨rfl, Or.inl h⟩⟩⟩

/-- C4 witness: the theorem applied to the `rc` tag. -/
theorem version_order_amended_witness :
    strLt "rc" "zzz" ∧ vkeyLt (1, 15, 0, "rc", 1) (1, 15, 0, "zzz", 0) :=
  ⟨by decide, version_order_amended.2 1 15 0 "rc" 1 (by decide)⟩

/-- C3 counterexample: `1.2.3x` does not match the spec's version
grammar (trailing junk) yet parses to `(1,2,3,"zzz",0)` rather than the
sentinel; and `v0.0.0-alpha1` parses strictly BELOW the sentinel, so
the sentinel is not at the bottom of the order. -/
theorem parse_version_sentinel_counterexample :
    specVersionGrammar "1.2.3x" = false ∧
    parse_version_tuple "1.2.3x" ≠ (0, 0, 0, "zzz", 0) ∧
    vkeyLt (parse_version_tuple "v0.0.0-alpha1") (0, 0, 0, "zzz", 0) := by
  decide

/-- C3 (amended): ParseVersion returns the sentinel `(0,0,0,"zzz",0)`
whenever the string, after stripping all leading `'v'`s, does not BEGIN
with a match of `MAJOR.MINOR.PATCH['-'TAG[NUM]]` (trailing characters
are permitted after a match); and the sentinel ranks below every parsed
version key whose major, minor and patch are not all zero. -/
theorem parse_version_sentinel_amended (s : String) :
    (matchVersionCore (s.data.dropWhile (· == 'v')) = none →
      parse_version_tuple s = (0, 0, 0, "zzz", 0)) ∧
    (∀ (M m p : Nat) (tag : String) (n : Nat),
      parse_version_tuple s = (M, m, p, tag, n) → ¬ (M = 0 ∧ m = 0 ∧ p = 0) →
      vkeyLt (0, 0, 0, "zzz", 0) (M, m, p, tag, n)) := by
  constructor
  · intro h
    simp [parse_version_tuple, h]
  · rintro M m p tag n - hne
    rcases Nat.eq_zero_or_pos M with hM | hM
    · rcases Nat.eq_zero_or_pos m with hm | hm
      · rcases Nat.eq_zero_or_pos p with hp | hp
        · exact absurd ⟨hM, hm, hp⟩ hne
        · exact Or.inr ⟨hM.symm, Or.inr ⟨hm.symm, Or.inl hp⟩⟩
      · exact Or.inr ⟨hM.symm, Or.inl hm⟩
    · exact Or.inl hM

/-- C3 witness: `garbage` parses to the sentinel, and the sentinel
ranks below the key of `v1.14.0`. -/
theorem parse_version_sentinel_amended_witness :
    parse_version_tuple "garbage" = (0, 0, 0, "zzz", 0) ∧
    vkeyLt (0, 0, 0, "zzz", 0) (1, 14, 0, "zzz", 0) :=
  ⟨(parse_version_sentinel_amended "garbage").1 rfl,
   (parse_version_sentinel_amended "v1.14.0").2 1 14 0 "zzz" 0 (by decide) (by decide)⟩

theorem latestOf_of_filter_nil {ch : String} {rs : List ReleaseEntry}
    {old : Option String} (h : rs.filter (fun r => r.channel == ch) = []) :
    latestOf ch rs old = old := by
  simp [latestOf, h]

theorem latestOf_of_filter_cons {ch : String} {rs t : List ReleaseEntry}
    {r0 : ReleaseEntry} {old : Option String}
    (h : rs.filter (fun r => r.channel == ch) = r0 :: t) :
    latestOf ch rs old = some r0.version := by
  simp [latestOf, h]

/-- C1 counterexample: upserting the stable `v1.2.0` into an index that
carries `latest_beta = "v9.9.9-rc1"` but has no release at all leaves
the stale `latest_beta` in the result, although the resulting releases
(just the one stable entry) contain nothing of channel `beta`. -/
theorem latest_stale_counterexample :
    (update_index 100 "2025-01-01"
        { format_version := 1
          updated_at := 0
          description := "PX4 Firmware Release Index"
          releases := []
          latest_stable := none
          latest_beta := some "v9.9.9-rc1"
          latest_dev := none
          extra := [] }
        "v1.2.0" "v1.2.0" 12 "mu" "").releases
      = [{ version := "v1.2.0", git_tag := "v1.2.0", release_date := "2025-01-01",
           channel := "stable", build_count := 12, manifest_url := "mu",
           s3_manifest_url := none }] ∧
    (update_index 100 "2025-01-01"
        { format_version := 1
          updated_at := 0
          description := "PX4 Firmware Release Index"
          releases := []
          latest_stable := none
          latest_beta := some "v9.9.9-rc1"
          latest_dev := none
          extra := [] }
        "v1.2.0" "v1.2.0" 12 "mu" "").latest_beta = some "v9.9.9-rc1" := by
  decide

/-- C1 (amended): after Upsert, for each channel that has at least one
release in the result the corresponding `latest_*` field is overwritten
with the version of the first (newest) such release; but for a channel
with NO release in the result the field keeps the prior index's value,
so a stale `latest_*` field from the input survives rather than being
removed. -/
theorem latest_fields_amended (now : Int) (today : String) (idx : FirmwareIndex)
    (v g : String) (bc : Int) (mu s3 : String) :
    ((update_index now today idx v g bc mu s3).releases.filter
        (fun r => r.channel == "stable") = [] →
      (update_index now today idx v g bc mu s3).latest_stable = idx.latest_stable) ∧
    (∀ (r0 : ReleaseEntry) (t : List ReleaseEntry),
      (update_index now today idx v g bc mu s3).releases.filter
        (fun r => r.channel == "stable") = r0 :: t →
      (update_index now today idx v g bc mu s3).latest_stable = some r0.version) ∧
    ((update_index now today idx v g bc mu s3).releases.filter
        (fun r => r.channel == "beta") = [] →
      (update_index now today idx v g bc mu s3).latest_beta = idx.latest_beta) ∧
    (∀ (r0 : ReleaseEntry) (t : List ReleaseEntry),
      (update_index now today idx v g bc mu s3).releases.filter
        (fun r => r.channel == "beta") = r0 :: t →
      (update_index now today idx v g bc mu s3).latest_beta = some r0.version) ∧
    ((update_index now today idx v g bc mu s3).releases.filter
        (fun r => r.channel == "dev") = [] →
      (update_index now today idx v g bc mu s3).latest_dev = idx.latest_dev) ∧
    (∀ (r0 : ReleaseEntry) (t : List ReleaseEntry),
      (update_index now today idx v g bc mu s3).releases.filter
        (fun r => r.channel == "dev") = r0 :: t →
      (update_index now today idx v g bc mu s3).latest_dev = some r0.version) := by
  refine ⟨fun h => ?_, fun r0 t h => ?_, fun h => ?_, fun r0 t h => ?_,
    fun h => ?_, fun r0 t h => ?_⟩
  · rw [update_index_latest_stable now today idx v g bc mu s3, latestOf_of_filter_nil h]
  · rw [update_index_latest_stable now today idx v g bc mu s3, latestOf_of_filter_cons h]
  · rw [update_index_latest_beta now today idx v g bc mu s3, latestOf_of_filter_nil h]
  · rw [update_index_latest_beta now today idx v g bc mu s3, latestOf_of_filter_cons h]
  · rw [update_index_latest_dev now today idx v g bc mu s3, latestOf_of_filter_nil h]
  · rw [update_index_latest_dev now today idx v g bc mu s3, latestOf_of_filter_cons h]

/-- C1 witness: in the stale-index scenario there is no beta release in
the result, and the amended theorem yields that the stale `latest_beta`
value survives. -/
theorem latest_fields_amended_witness :
    (update_index 100 "2025-01-01"
        { format_version := 1
          updated_at := 0
          description := "PX4 Firmware Release Index"
          releases := []
          latest_stable := none
          latest_beta := some "v9.9.9-rc1"
          latest_dev := none
          extra := [] }
        "v1.2.0" "v1.2.0" 12 "mu" "").latest_beta = some "v9.9.9-rc1" :=
  (latest_fields_amended 100 "2025-01-01"
      { format_version := 1
        updated_at := 0
        description := "PX4 Firmware Release Index"
        releases := []
        latest_stable := none
        latest_beta := some "v9.9.9-rc1"
        latest_dev := none
        extra := [] }
      "v1.2.0" "v1.2.0" 12 "mu" "").2.2.1 (by decide)

theorem filter_version_length {R : List ReleaseEntry} {v : String}
    (hnd : (R.map ReleaseEntry.version).Nodup)
    (hv : v ∈ R.map ReleaseEntry.version) :
    (R.filter (fun r => !(r.version == v))).length + 1 = R.length := by
  induction R with
  | nil => simp at hv
  | cons r R ih =>
    simp only [List.map_cons, List.nodup_cons] at hnd
    rcases List.mem_cons.mp hv with h | h
    · have hfr : (!(r.version == v)) = false := by simp [h]
      rw [List.filter_cons, hfr]
      have hall : R.filter (fun r' => !(r'.version == v)) = R := by
        apply List.filter_eq_self.mpr
        intro a ha
        have hav : a.version ∈ R.map ReleaseEntry.version := List.mem_map_of_mem _ ha
        have : a.version ≠ v := fun he => hnd.1 (h ▸ he ▸ hav)
        simp [this]
      simp [hall]
    · have hrv : r.version ≠ v := fun he => hnd.1 (he ▸ h)
      have hfr : (!(r.version == v)) = true := by simp [hrv]
      rw [List.filter_cons, hfr]
      simp only [if_true, List.length_cons]
      have := ih hnd.2 h
      omega

/-- C6: Upsert is keyed by version: an index with at most one release
per version keeps that invariant; if the upserted version was already
present the release count is unchanged; and in the result every release
bearing the upserted version carries the new manifest URL. -/
theorem upsert_replace_by_version (now : Int) (today : String) (idx : FirmwareIndex)
    (v g : String) (bc : Int) (mu s3 : String)
    (hnd : (idx.releases.map ReleaseEntry.version).Nodup) :
    ((update_index now today idx v g bc mu s3).releases.map ReleaseEntry.version).Nodup ∧
    (v ∈ idx.releases.map ReleaseEntry.version →
      (update_index now today idx v g bc mu s3).releases.length = idx.releases.length) ∧
    (∀ r ∈ (update_index now today idx v g bc mu s3).releases,
      r.version = v → r.manifest_url = mu) := by
  have hperm : (update_index now today idx v g bc mu s3).releases.Perm
      (idx.releases.filter (fun r => !(r.version == v))
        ++ [mkNewEntry today v g bc mu s3]) := by
    rw [update_index_releases now today idx v g bc mu s3]
    exact List.perm_insertionSort entryGE _
  refine ⟨?_, fun hv => ?_, fun r hr hrv => ?_⟩
  · apply (hperm.map ReleaseEntry.version).nodup_iff.mpr
    rw [List.map_append]
    apply List.nodup_append.mpr
    refine ⟨?_, by simp, ?_⟩
    · exact hnd.sublist ((List.filter_sublist idx.releases).map ReleaseEntry.version)
    · intro x hx hx'
      rcases List.mem_map.mp hx with ⟨a, ha, hax⟩
      have hq := (List.mem_filter.mp ha).2
      have : a.version ≠ v := by simpa using hq
      have hxv : x = v := by
        simpa [mkNewEntry] using hx'
      exact this (hax.trans hxv ▸ rfl)
  · rw [hperm.length_eq, List.length_append]
    have := filter_version_length hnd hv
    simp only [List.length_cons, List.length_nil]
    omega
  · rcases List.mem_append.mp (hperm.subset hr) with h | h
    · have hq := (List.mem_filter.mp h).2
      have : r.version ≠ v := by simpa using hq
      exact absurd hrv this
    · have : r = mkNewEntry today v g bc mu s3 := by simpa using h
      rw [this]
      rfl

/-- C6 witness: upserting `v1.0.0` (already present) into a two-release
index keeps the release count at 2. -/
theorem upsert_replace_by_version_witness :
    (update_index 100 "2025-01-01"
        { format_version := 1
          updated_at := 0
          description := "PX4 Firmware Release Index"
          releases := [
            { version := "v1.0.0", git_tag := "v1.0.0", release_date := "2024-01-01",
              channel := "stable", build_count := 10, manifest_url := "m1",
              s3_manifest_url := none },
            { version := "v1.1.0-rc1", git_tag := "v1.1.0-rc1", release_date := "2024-06-01",
              channel := "beta", build_count := 11, manifest_url := "m2",
              s3_manifest_url := none }]
          latest_stable := some "v1.0.0"
          latest_beta := some "v1.1.0-rc1"
          latest_dev := none
          extra := [] }
        "v1.0.0" "v1.0.0" 10 "newurl" "").releases.length = 2 :=
  (upsert_replace_by_version 100 "2025-01-01"
      { format_version := 1
        updated_at := 0
        description := "PX4 Firmware Release Index"
        releases := [
          { version := "v1.0.0", git_tag := "v1.0.0", release_date := "2024-01-01",
            channel := "stable", build_count := 10, manifest_url := "m1",
            s3_manifest_url := none },
          { version := "v1.1.0-rc1", git_tag := "v1.1.0-rc1", release_date := "2024-06-01",
            channel := "beta", build_count := 11, manifest_url := "m2",
            s3_manifest_url := none }]
        latest_stable := some "v1.0.0"
        latest_beta := some "v1.1.0-rc1"
        latest_dev := none
        extra := [] }
      "v1.0.0" "v1.0.0" 10 "newurl" "" (by decide)).2.1 (by decide)

theorem generate_release_manifest_builds (files : List PX4File)
    (v g base : String) (now : Int) :
    (generate_release_manifest files v g base now).builds
      = List.insertionSort buildLE (files.filterMap (fun f =>
          (extract_px4_metadata f).map (fun m =>
            if base ≠ "" then
              { m with url := some (rstripSlashes base ++ "/" ++ m.filename) }
            else m))) := rfl

theorem extract_url_none {f : PX4File} {m : BuildEntry}
    (h : extract_px4_metadata f = some m) : m.url = none := by
  unfold extract_px4_metadata at h
  split at h
  · exact absurd h (by simp)
  · split at h
    · exact absurd h (by simp)
    · injection h with h'
      rw [← h']

/-- C8: for every input list of artifact documents the generated
manifest satisfies `build_count = builds.length`; `build_count` is the
number of files whose metadata extraction succeeds; and the empty input
yields `build_count = 0` with an empty `builds` sequence (a valid
manifest, not an error). -/
theorem manifest_build_count_invariant (files : List PX4File)
    (v g base : String) (now : Int) :
    ((generate_release_manifest files v g base now).build_count
      = (generate_release_manifest files v g base now).builds.length) ∧
    ((generate_release_manifest files v g base now).build_count
      = (files.filterMap extract_px4_metadata).length) ∧
    (generate_release_manifest [] v g base now).build_count = 0 ∧
    (generate_release_manifest [] v g base now).builds = [] := by
  refine ⟨rfl, ?_, rfl, rfl⟩
  show (List.insertionSort buildLE (files.filterMap (fun f =>
      (extract_px4_metadata f).map (fun m =>
        if base ≠ "" then
          { m with url := some (rstripSlashes base ++ "/" ++ m.filename) }
        else m)))).length = (files.filterMap extract_px4_metadata).length
  rw [List.length_insertionSort]
  induction files with
  | nil => rfl
  | cons f fs ih =>
    rw [List.filterMap_cons, List.filterMap_cons]
    cases h : extract_px4_metadata f with
    | none => simpa [h] using ih
    | some m => simpa [h] using ih

/-- C7 counterexample: with `baseURL = "a//"` the code strips ALL
trailing slashes and produces the url `a/f.px4`, while the claim's
"exactly one trailing slash stripped" rule would produce `a//f.px4`. -/
theorem manifest_url_counterexample :
    (generate_release_manifest
        [{ name := "f.px4",
           doc := some
             { magic := some "PX4FWv1", board_id := some 9, board_revision := none,
               version := none, git_identity := none, git_hash := none,
               build_time := none, image_size := none, sha256sum := none,
               mav_autopilot := none, image := some "i", manifest := none } }]
        "" "" "a//" 0).builds.map (fun b => b.url) = [some "a/f.px4"] ∧
    specBaseURLJoin "a//" "f.px4" = "a//f.px4" ∧
    ("a/f.px4" : String) ≠ "a//f.px4" := by
  decide

/-- C7 (amended): when `baseURL` is nonempty each surviving entry's url
is `baseURL` with ALL trailing slashes stripped, then one slash
appended, followed by the entry's filename; when `baseURL` is empty no
url is set. -/
theorem manifest_url_amended (files : List PX4File)
    (v g base : String) (now : Int) :
    (base ≠ "" → ∀ b ∈ (generate_release_manifest files v g base now).builds,
      b.url = some (rstripSlashes base ++ "/" ++ b.filename)) ∧
    (base = "" → ∀ b ∈ (generate_release_manifest files v g base now).builds,
      b.url = none) := by
  constructor
  · intro hbase b hb
    rw [generate_release_manifest_builds files v g base now] at hb
    have hb' := (List.perm_insertionSort buildLE _).mem_iff.mp hb
    rcases List.mem_filterMap.mp hb' with ⟨a, _, hfa⟩
    rcases Option.map_eq_some'.mp hfa with ⟨m, _, hbm⟩
    rw [if_pos hbase] at hbm
    rw [← hbm]
  · intro hbase b hb
    rw [generate_release_manifest_builds files v g base now] at hb
    have hb' := (List.perm_insertionSort buildLE _).mem_iff.mp hb
    rcases List.mem_filterMap.mp hb' with ⟨a, _, hfa⟩
    rcases Option.map_eq_some'.mp hfa with ⟨m, hm, hbm⟩
    rw [if_neg (by simp [hbase])] at hbm
    rw [← hbm]
    exact extract_url_none hm

/-- C7 witness: the amended theorem applied to a one-file directory
with base URL `https://x`. -/
theorem manifest_url_amended_witness :
    ("https://x" : String) ≠ "" ∧
    ({ filename := "f.px4", board_id := 9, board_revision := 0, version := "",
       git_identity := "", git_hash := "", build_time := 0, image_size := 0,
       sha256sum := "", mav_autopilot := 12, manifest := none,
       url := some "https://x/f.px4" } : BuildEntry).url
      = some (rstripSlashes "https://x" ++ "/" ++ "f.px4") :=
  ⟨by decide,
   (manifest_url_amended
      [{ name := "f.px4",
         doc := some
           { magic := some "PX4FWv1", board_id := some 9, board_revision := none,
             version := none, git_identity := none, git_hash := none,
             build_time := none, image_size := none, sha256sum := none,
             mav_autopilot := none, image := some "i", manifest := none } }]
      "" "" "https://x" 0).1 (by decide) _ (by decide)⟩

end PX4
